import Mathlib

/-
Verification of the diablo4_item_comparer item-ingestion and scoring pipeline.
The relational schema constraints and session management are embedded from
src/models.py and src/database.py; the ingestion/scoring pipeline itself is
present only in specification form in the repository, so those components are
modelled from the specification text, as noted on each definition.
-/

namespace D4

/-- Modelled from the spec: OcrLine, the raw OCR provider output (section 3,
section 6): raw text, a confidence in the unit interval, a bounding box and
the source line index in tooltip reading order. -/
structure OcrLine where
  text : String
  confidence : ℚ
  bbox : Nat × Nat × Nat × Nat
  lineIndex : Nat
deriving Repr, DecidableEq

/-- Modelled from the spec: ReferenceAffix from the Reference Dictionary
(section 3): id, canonical name, optional numeric range, percentage flag,
duplicate-roll permission (section 4.2) and priority tier. The source only
declares the corresponding relational columns in src/models.py (Affix). -/
structure RefAffix where
  id : Nat
  name : String
  minValue : Option ℚ
  maxValue : Option ℚ
  isPercentage : Bool
  allowDuplicate : Bool
  priorityTier : Nat
deriving Repr, DecidableEq

/-- Modelled from the spec: NormalizedLine (section 3, section 4.1): the source
line plus the canonical text, the first extracted numeric token with its
percentage flag, and the unparsed trailing text after that token. -/
structure NormalizedLine where
  source : OcrLine
  canonText : String
  value : Option ℚ
  isPct : Bool
  trailing : String
deriving Repr, DecidableEq

/-- Modelled from the spec: AffixMatch (section 3): matched reference affix id,
extracted roll value, match confidence, and the implicit-affix tag assigned by
the Assembler (section 4.3). -/
structure AffixMatch where
  affixId : Nat
  roll : ℚ
  confidence : ℚ
  isImplicit : Bool
deriving Repr, DecidableEq

/-- Modelled from the spec: the StructuredItem fields the pipeline claims
concern (section 3): item name, the ordered affix matches in tooltip order,
and the unresolved lines retained as raw text (section 4.3). -/
structure StructuredItem where
  name : String
  affixes : List AffixMatch
  unresolvedLines : List String
deriving Repr, DecidableEq

/-- Modelled from the spec: the fatal assembly failures (section 7). -/
inductive AssemblyError where
  | emptyInput
  | insufficientMatch
deriving Repr, DecidableEq

/-- Modelled from the spec: one entry of a BuildWeightProfile (section 3);
the source declares the corresponding columns in src/models.py
(BuildAffixWeight). -/
structure BuildAffixWeight where
  affixId : Nat
  weight : ℚ
  priority : Nat
  isRequired : Bool
deriving Repr, DecidableEq

/-- Modelled from the spec: BuildWeightProfile (section 3), a build id with
its affix weight entries. -/
structure BuildWeightProfile where
  buildId : Nat
  weights : List BuildAffixWeight
deriving Repr, DecidableEq

/-- Modelled from the spec: ScoreBreakdown (section 3): per-affix
contributions and the total score. -/
structure ScoreBreakdown where
  contributions : List (Nat × ℚ)
  total : ℚ
deriving Repr, DecidableEq

/-- Modelled from the spec: the comparison verdict (section 3). -/
inductive Winner where
  | A
  | B
  | tie
deriving Repr, DecidableEq

/-- Modelled from the spec: ComparisonResult (section 3): both scores, the
delta, the winner and both breakdowns. -/
structure ComparisonResult where
  scoreA : ℚ
  scoreB : ℚ
  delta : ℚ
  winner : Winner
  breakdownA : ScoreBreakdown
  breakdownB : ScoreBreakdown
deriving Repr, DecidableEq

/-- Looks up a reference affix by id in the dictionary snapshot. -/
def lookupAffix (dict : List RefAffix) (i : Nat) : Option RefAffix :=
  dict.find? (fun a => a.id == i)

/-- The defined numeric range of a reference affix, when both bounds exist. -/
def refRange (a : RefAffix) : Option (ℚ × ℚ) :=
  match a.minValue, a.maxValue with
  | some mn, some mx => some (mn, mx)
  | _, _ => none

/-- Range of the reference affix with the given id, when it is in the
dictionary and both bounds are defined. -/
def lookupRange (dict : List RefAffix) (i : Nat) : Option (ℚ × ℚ) :=
  (lookupAffix dict i).bind refRange

/-- Modelled from the spec: normalizedRoll (section 4.5): the roll scaled to
the unit interval within the reference range and clamped, when the range is
known with max strictly above min; the raw roll value otherwise. -/
def normalizedRoll (roll : ℚ) (range : Option (ℚ × ℚ)) : ℚ :=
  match range with
  | none => roll
  | some (mn, mx) => if mn < mx then max 0 (min 1 ((roll - mn) / (mx - mn))) else roll

/-- Modelled from the spec: the default required-missing penalty factor
(section 4.5). -/
def defaultPenaltyFactor : ℚ := 2

/-- Modelled from the spec: the contribution of one profile entry
(section 4.5, section 7): an affix id unknown to the dictionary contributes
zero; an affix present on the item contributes weight times normalizedRoll; a
required affix missing from the item contributes minus weight times the
penalty factor, and a non-required missing affix contributes zero. -/
def affixContribution (dict : List RefAffix) (pf : ℚ) (item : StructuredItem)
    (w : BuildAffixWeight) : ℚ :=
  match lookupAffix dict w.affixId with
  | none => 0
  | some ra =>
    match item.affixes.find? (fun x => x.affixId == w.affixId) with
    | some m => w.weight * normalizedRoll m.roll (refRange ra)
    | none => if w.isRequired then -(w.weight * pf) else 0

/-- Modelled from the spec: the Scoring Engine (section 4.5): one contribution
per profile entry, total equal to the sum of the contributions. -/
def score (dict : List RefAffix) (pf : ℚ) (item : StructuredItem)
    (profile : BuildWeightProfile) : ScoreBreakdown :=
  let cs := profile.weights.map (fun w => (w.affixId, affixContribution dict pf item w))
  ⟨cs, (cs.map Prod.snd).sum⟩

/-- Modelled from the spec: the decorative glyphs stripped by the Text
Normalizer (section 4.1). -/
def decorativeGlyphs : List Char := ['*', '•', '★', '◆', '·', '♦']

/-- Tests whether a character is one of the known decorative glyphs. -/
def isGlyph (c : Char) : Bool := decorativeGlyphs.contains c

/-- Modelled from the spec: per-character canonicalization of the Text
Normalizer (section 4.1): unify unicode variants of percent, plus and range
dashes, and lowercase everything else. -/
def foldChar (c : Char) : Char :=
  if c = '％' then '%'
  else if c = '＋' then '+'
  else if c = '–' then '-'
  else if c = '—' then '-'
  else c.toLower

/-- Collapses runs of whitespace into single spaces; the flag records whether
the previous kept character was a space, so leading whitespace is dropped. -/
def collapseWsAux : Bool → List Char → List Char
  | _, [] => []
  | prev, c :: rest =>
    if c.isWhitespace then
      if prev then collapseWsAux true rest else ' ' :: collapseWsAux true rest
    else c :: collapseWsAux false rest

/-- Drops trailing spaces left over after whitespace collapsing. -/
def trimTrailing (cs : List Char) : List Char :=
  (cs.reverse.dropWhile (fun c => c = ' ')).reverse

/-- Modelled from the spec: the canonical text form produced by the Text
Normalizer (section 4.1): unicode-fold and lowercase, strip decorative
glyphs, collapse internal whitespace and trim. -/
def canonicalize (s : String) : String :=
  String.mk (trimTrailing (collapseWsAux true ((s.data.map foldChar).filter (fun c => !isGlyph c))))

/-- Splits a character list into its leading digits and the remainder. -/
def takeDigits : List Char → List Char × List Char
  | [] => ([], [])
  | c :: rest =>
    if c.isDigit then
      let p := takeDigits rest
      (c :: p.1, p.2)
    else ([], c :: rest)

/-- Reads a digit list as a natural number. -/
def digitsToNat (ds : List Char) : Nat :=
  ds.foldl (fun acc c => acc * 10 + (c.toNat - 48)) 0

/-- Modelled from the spec: parses one numeric token of the shape sign,
digits, optional decimal part, optional percent sign (section 4.1), returning
the value, the percentage flag and the unconsumed remainder. -/
def parseNumCore (cs : List Char) : Option (ℚ × Bool × List Char) :=
  let sp : ℚ × List Char :=
    match cs with
    | '+' :: r => (1, r)
    | '-' :: r => (-1, r)
    | _ => (1, cs)
  let ip := takeDigits sp.2
  if ip.1.isEmpty then none
  else
    let fp : List Char × List Char :=
      match ip.2 with
      | '.' :: r =>
        let q := takeDigits r
        if q.1.isEmpty then ([], ip.2) else q
      | _ => ([], ip.2)
    let pc : Bool × List Char :=
      match fp.2 with
      | '%' :: r => (true, r)
      | _ => (false, fp.2)
    let v : ℚ :=
      sp.1 * ((digitsToNat ip.1 : ℚ) + (digitsToNat fp.1 : ℚ) / ((10 : ℚ) ^ fp.1.length))
    some (v, pc.1, pc.2)

/-- Tests whether a character list starts a numeric token: a digit, or a sign
immediately followed by a digit. -/
def numStart : List Char → Bool
  | [] => false
  | c :: rest =>
    c.isDigit ||
      ((c = '+' || c = '-') &&
        (match rest with
         | d :: _ => d.isDigit
         | [] => false))

/-- Modelled from the spec: the extractor takes the first numeric token in
the canonical text (section 4.1). -/
def findNum : List Char → Option (ℚ × Bool × List Char)
  | [] => none
  | c :: rest =>
    if numStart (c :: rest) then
      match parseNumCore (c :: rest) with
      | some r => some r
      | none => findNum rest
    else findNum rest

/-- Modelled from the spec: the Text Normalizer (section 4.1): deterministic
and pure; produces the canonical text and the first numeric token, recording
the remainder as unparsed trailing text; absence of a numeric token yields an
empty value, never an error. -/
def normalize (l : OcrLine) : NormalizedLine :=
  let ct := canonicalize l.text
  match findNum ct.data with
  | some (v, p, rest) => ⟨l, ct, some v, p, String.mk rest⟩
  | none => ⟨l, ct, none, false, ""⟩

/-- Boolean substring test: does the needle occur inside the haystack. -/
def containsSub (needle : List Char) : List Char → Bool
  | [] => needle.isEmpty
  | c :: t => needle.isPrefixOf (c :: t) || containsSub needle t

/-- Modelled from the spec: rarity and item-type keywords recognised as
structural cues by the Item Assembler (section 4.3). -/
def rarityTypeKeywords : List String :=
  ["common", "magic", "rare", "legendary", "unique", "mythic", "ancestral",
   "sanctified", "item power", "helm", "sword", "ring", "amulet", "boots",
   "chest armor", "gloves", "pants", "shield", "staff", "wand", "bow",
   "dagger", "mace", "axe", "polearm", "scythe", "focus", "totem"]

/-- Modelled from the spec: divider markers separating implicit affixes from
the rest of the tooltip (section 4.3): a horizontal rule or a unique-power
keyword. -/
def isDividerLine (s : String) : Bool :=
  containsSub "unique power".data s.data || containsSub "---".data s.data

/-- Tests whether a canonical line is a rarity or item-type keyword line. -/
def isStructuralLine (s : String) : Bool :=
  rarityTypeKeywords.any (fun k => containsSub k.data s.data)

/-- Checks that a roll lies inside the matched reference range, when the
affix is known to the dictionary and its range is defined; an unknown or
unranged affix passes (section 4.3 discards only out-of-range rolls). -/
def rollInRange (dict : List RefAffix) (i : Nat) (roll : ℚ) : Bool :=
  match lookupRange dict i with
  | some (mn, mx) => decide (mn ≤ roll) && decide (roll ≤ mx)
  | none => true

/-- Modelled from the spec: after a match is accepted its reference id is
consumed, unless the dictionary marks the affix as allowing duplicate rolls
(section 4.2). -/
def updateUsed (dict : List RefAffix) (i : Nat) (used : List Nat) : List Nat :=
  match lookupAffix dict i with
  | some a => if a.allowDuplicate then used else i :: used
  | none => i :: used

/-- Running state of one assembly pass: consumed reference ids, accepted
affix matches in order, unresolved raw lines in order, the count of resolved
lines, and whether the implicit-affix divider has been seen. -/
structure AsmState where
  usedIds : List Nat
  affixes : List AffixMatch
  unresolved : List String
  resolvedCount : Nat
  seenDivider : Bool
deriving Repr, DecidableEq

/-- The assembly state before any line is processed. -/
def initState : AsmState := ⟨[], [], [], 0, false⟩

/-- Modelled from the spec: processing of one non-name line by the Item
Assembler (section 4.3): divider markers and rarity or type keyword lines are
structural (resolved); every other line goes to the matcher with the running
used-id set; a match whose roll fails range validation is discarded and the
line is kept as unresolved raw text, as is a line the matcher rejects;
accepted matches before the divider are tagged implicit. -/
def stepLine (dict : List RefAffix)
    (matchFn : NormalizedLine → List Nat → Option AffixMatch)
    (st : AsmState) (l : OcrLine) : AsmState :=
  let nl := normalize l
  if isDividerLine nl.canonText then
    { st with seenDivider := true, resolvedCount := st.resolvedCount + 1 }
  else if isStructuralLine nl.canonText then
    { st with resolvedCount := st.resolvedCount + 1 }
  else
    match matchFn nl st.usedIds with
    | none => { st with unresolved := st.unresolved ++ [l.text] }
    | some m =>
      if rollInRange dict m.affixId m.roll then
        { st with
          affixes := st.affixes ++ [{ m with isImplicit := !st.seenDivider }],
          usedIds := updateUsed dict m.affixId st.usedIds,
          resolvedCount := st.resolvedCount + 1 }
      else { st with unresolved := st.unresolved ++ [l.text] }

/-- The input lines that are non-empty after canonicalization. -/
def nonEmptyLines (lines : List OcrLine) : List OcrLine :=
  lines.filter (fun l => !(canonicalize l.text).data.isEmpty)

/-- Modelled from the spec: the Item Assembler (section 4.3): zero non-empty
lines fail immediately with EmptyInput; the first non-empty line is the item
name; the remaining lines are folded through stepLine; if fewer than half of
the non-empty lines resolve the assembly fails with InsufficientMatch;
otherwise the StructuredItem is returned with the unresolved lines retained
as raw text. -/
def assemble (dict : List RefAffix)
    (matchFn : NormalizedLine → List Nat → Option AffixMatch)
    (lines : List OcrLine) : Except AssemblyError StructuredItem :=
  match nonEmptyLines lines with
  | [] => Except.error AssemblyError.emptyInput
  | nameLine :: rest =>
    let st := rest.foldl (stepLine dict matchFn) initState
    if (st.resolvedCount + 1) * 2 < rest.length + 1 then
      Except.error AssemblyError.insufficientMatch
    else
      Except.ok ⟨canonicalize nameLine.text, st.affixes, st.unresolved⟩

/-- The number of lines the assembly pass resolves: the name line plus the
structural and matched lines counted by the fold. -/
def resolvedCountOf (dict : List RefAffix)
    (matchFn : NormalizedLine → List Nat → Option AffixMatch)
    (lines : List OcrLine) : Nat :=
  match nonEmptyLines lines with
  | [] => 0
  | _ :: rest => (rest.foldl (stepLine dict matchFn) initState).resolvedCount + 1

/-- Modelled from the spec: the Result Cache key (section 4.4): the ordered
text and bounding-box tuples of the raw OCR input, never the confidences. -/
abbrev CacheKey := List (String × Nat × Nat × Nat × Nat)

/-- Modelled from the spec: content-derived cache key over the ordered
text and bbox tuples (section 4.4). -/
def cacheKey (lines : List OcrLine) : CacheKey :=
  lines.map (fun l => (l.text, l.bbox))

/-- The memoization store of the Result Cache: key to memoized assembly
result. -/
abbrev Cache := List (CacheKey × Except AssemblyError StructuredItem)

/-- Association lookup in the Result Cache. -/
def cacheLookup (c : Cache) (k : CacheKey) : Option (Except AssemblyError StructuredItem) :=
  (c.find? (fun p => decide (p.1 = k))).map Prod.snd

/-- Modelled from the spec: getOrCompute of the Result Cache (section 4.4):
on a hit the memoized value is returned without computing; on a miss the
compute function runs once and its result is stored. The third component
counts how many times the compute function was invoked by this call. -/
def getOrCompute (c : Cache) (k : CacheKey)
    (fn : Unit → Except AssemblyError StructuredItem) :
    Except AssemblyError StructuredItem × Cache × Nat :=
  match cacheLookup c k with
  | some v => (v, c, 0)
  | none =>
    let v := fn ()
    (v, (k, v) :: c, 1)

/-- Modelled from the spec: one ingestion call (section 2, section 4.4):
assembly of the raw OCR lines memoized through the Result Cache. -/
def ingest (dict : List RefAffix)
    (matchFn : NormalizedLine → List Nat → Option AffixMatch)
    (c : Cache) (lines : List OcrLine) :
    Except AssemblyError StructuredItem × Cache × Nat :=
  getOrCompute c (cacheKey lines) (fun _ => assemble dict matchFn lines)

/-- Modelled from the spec: the winner rule of the Comparator (section 4.6):
A when the delta exceeds epsilon, B when it is below minus epsilon, tie
otherwise. -/
def winnerOf (d eps : ℚ) : Winner :=
  if eps < d then Winner.A else if d < -eps then Winner.B else Winner.tie

/-- Modelled from the spec: the default comparison epsilon (section 3). -/
def defaultEpsilon : ℚ := 1 / 100

/-- Modelled from the spec: the Comparator (section 4.6): pure function of the
two breakdowns and epsilon, reporting both scores, the delta, the winner and
both breakdowns. -/
def compareBreakdowns (a b : ScoreBreakdown) (eps : ℚ) : ComparisonResult :=
  ⟨a.total, b.total, a.total - b.total, winnerOf (a.total - b.total) eps, a, b⟩

/-- A persisted item_instances row, restricted to the columns the check
constraints of src/models.py mention; nullable columns are options, and a
null value passes a SQL check constraint. -/
structure ItemInstanceRow where
  name : String
  itemTypeId : Nat
  itemPower : Option Int
  quality : Option Int
  ocrConfidence : Option ℚ
deriving Repr, DecidableEq

/-- The check constraints check_quality_range and check_confidence_range of
the item_instances table in src/models.py: quality between 0 and 8 and
ocr_confidence between 0 and 1, with null passing. -/
def itemInstanceRowOk (r : ItemInstanceRow) : Bool :=
  (match r.quality with
   | none => true
   | some q => decide (0 ≤ q) && decide (q ≤ 8)) &&
  (match r.ocrConfidence with
   | none => true
   | some c => decide (0 ≤ c) && decide (c ≤ 1))

/-- A persisted build_affix_weights row, restricted to the columns relevant
to its check constraint; weight is not nullable in src/models.py. -/
structure BuildAffixWeightRow where
  buildId : Nat
  affixId : Nat
  weight : ℚ
  priority : Nat
  isRequired : Bool
deriving Repr, DecidableEq

/-- The check constraint check_weight_range of the build_affix_weights table
in src/models.py: weight between 0 and 100. -/
def weightRowOk (r : BuildAffixWeightRow) : Bool :=
  decide (0 ≤ r.weight) && decide (r.weight ≤ 100)

/-- A write against one table: inserting a new row or updating the row at a
position with new column values. -/
inductive TableOp (ρ : Type) where
  | insertRow (r : ρ)
  | updateRow (i : Nat) (r : ρ)

/-- Applies one write under a check constraint: a row violating the check is
rejected and the stored table is unchanged, as the database enforces for the
CheckConstraint declarations of src/models.py. -/
def applyOp {ρ : Type} (ok : ρ → Bool) (rows : List ρ) : TableOp ρ → List ρ
  | TableOp.insertRow r => if ok r then r :: rows else rows
  | TableOp.updateRow i r => if ok r then rows.set i r else rows

/-- Applies a sequence of writes under a check constraint. -/
def runOps {ρ : Type} (ok : ρ → Bool) (rows : List ρ) (ops : List (TableOp ρ)) : List ρ :=
  ops.foldl (applyOp ok) rows

/-- The observable session state of the get_db context manager of
src/database.py: the committed database contents, the pending contents seen
inside the session, and whether the session has been closed. -/
structure DbSession (δ : Type) where
  committed : δ
  pending : δ
  closed : Bool
deriving Repr, DecidableEq

/-- The get_db context manager of src/database.py: open a session, run the
body on it, commit when the body returns normally, roll back and re-raise
when it raises, and close the session in both cases before returning. The
body maps the initial contents to the pending contents it produced, plus the
exception it raised, if any. -/
def get_db {δ ε : Type} (dbinit : δ) (body : δ → δ × Option ε) : DbSession δ × Option ε :=
  match body dbinit with
  | (p, none) => (⟨p, p, true⟩, none)
  | (_, some e) => (⟨dbinit, dbinit, true⟩, some e)

/-- The reference affix of the worked example of the spec (section 8):
critical strike chance with range 1 to 10. -/
def raW : RefAffix := ⟨1, "critical strike chance", some 1, some 10, true, false, 1⟩

/-- A one-entry reference dictionary for concrete evaluations. -/
def dictW : List RefAffix := [raW]

/-- A weight profile holding one required entry of weight 100 on the
dictionary affix. -/
def profW : BuildWeightProfile := ⟨7, [⟨1, 100, 1, true⟩]⟩

/-- The required entry of profW. -/
def wW : BuildAffixWeight := ⟨1, 100, 1, true⟩

/-- A concrete item without the required affix. -/
def itemMissW : StructuredItem := ⟨"stormshield", [], []⟩

/-- A match of the dictionary affix at its minimum roll. -/
def newMW : AffixMatch := ⟨1, 1, 1, false⟩

/-- The item of itemMissW with the required affix present at minimum roll. -/
def itemPresW : StructuredItem := ⟨"stormshield", [newMW], []⟩

/-- A weight profile with one non-required entry of weight 50 on the
dictionary affix, as in the worked example of the spec (section 8). -/
def profExW : BuildWeightProfile := ⟨1, [⟨1, 50, 1, false⟩]⟩

/-- The entry of profExW. -/
def wExW : BuildAffixWeight := ⟨1, 50, 1, false⟩

/-- An item carrying the worked-example match: roll 8.5 on the dictionary
affix at confidence 0.95. -/
def itemExW : StructuredItem := ⟨"tal rasha ring", [⟨1, 17 / 2, 19 / 20, false⟩], []⟩

/-- The worked-example match on itemExW. -/
def mExW : AffixMatch := ⟨1, 17 / 2, 19 / 20, false⟩

/-- A matcher for concrete evaluations: accepts a line whose extracted value
is 8.5 as a roll of the dictionary affix, at confidence equal to the line
confidence. -/
def matchFnW : NormalizedLine → List Nat → Option AffixMatch :=
  fun nl used =>
    if nl.value = some (17 / 2) && !(used.contains 1) then
      some ⟨1, 17 / 2, nl.source.confidence, false⟩
    else none

/-- Concrete OCR lines for the assembler witness: a name line and the worked
example affix line. -/
def linesW : List OcrLine :=
  [⟨"Tempest Roar", 9 / 10, (10, 10, 200, 20), 0⟩,
   ⟨"+8.5% Critical Strike Chance", 19 / 20, (10, 40, 200, 20), 1⟩]

/-- The same OCR lines as linesW with different per-line confidences. -/
def linesW2 : List OcrLine :=
  [⟨"Tempest Roar", 1 / 2, (10, 10, 200, 20), 0⟩,
   ⟨"+8.5% Critical Strike Chance", 3 / 5, (10, 40, 200, 20), 1⟩]

/-- The structured item assembled from linesW under dictW and matchFnW. -/
def itemW : StructuredItem :=
  ⟨"tempest roar", [⟨1, 17 / 2, 19 / 20, true⟩], []⟩

/-- A concrete item_instances row satisfying both check constraints. -/
def rowW : ItemInstanceRow := ⟨"ocr item", 1, some 750, some 5, some (19 / 20)⟩

/-- A concrete build_affix_weights row satisfying its check constraint. -/
def wrowW : BuildAffixWeightRow := ⟨1, 1, 50, 1, true⟩

/-- The winner is A exactly when the delta exceeds epsilon. -/
lemma winnerOf_eq_A_iff (d eps : ℚ) : winnerOf d eps = Winner.A ↔ eps < d := by
  unfold winnerOf
  split_ifs with h1 h2 <;> simp_all

/-- For nonnegative epsilon, the winner is B exactly when the delta is below
minus epsilon. -/
lemma winnerOf_eq_B_iff (d eps : ℚ) (heps : 0 ≤ eps) :
    winnerOf d eps = Winner.B ↔ d < -eps := by
  unfold winnerOf
  split_ifs with h1 h2 <;> simp_all <;> linarith

/-- The winner is tie exactly when the absolute delta is at most epsilon. -/
lemma winnerOf_eq_tie_iff (d eps : ℚ) : winnerOf d eps = Winner.tie ↔ |d| ≤ eps := by
  unfold winnerOf
  rw [abs_le]
  split_ifs with h1 h2 <;> simp_all <;> constructor <;> intro h <;> linarith

/-- C2 counterexample: at delta equal to epsilon the comparator reports tie
although the absolute delta is not strictly below epsilon, and at a negative
epsilon the delta can be below minus epsilon without the winner being B, so
the claimed iff characterizations fail as stated. -/
theorem compare_tie_boundary_cex :
    ((compareBreakdowns ⟨[], 1 / 100⟩ ⟨[], 0⟩ (1 / 100)).winner = Winner.tie ∧
      ¬ |(compareBreakdowns ⟨[], 1 / 100⟩ ⟨[], 0⟩ (1 / 100)).delta| < 1 / 100) ∧
    ((compareBreakdowns ⟨[], 0⟩ ⟨[], 0⟩ (-1)).delta < -(-1) ∧
      ¬ (compareBreakdowns ⟨[], 0⟩ ⟨[], 0⟩ (-1)).winner = Winner.B) := by
  refine ⟨⟨?_, ?_⟩, ?_, ?_⟩
  · show winnerOf ((1 : ℚ) / 100 - 0) (1 / 100) = Winner.tie
    unfold winnerOf
    rw [if_neg (by norm_num), if_neg (by norm_num)]
  · show ¬ |(1 : ℚ) / 100 - 0| < 1 / 100
    rw [show (1 : ℚ) / 100 - 0 = 1 / 100 by norm_num, abs_of_nonneg (by norm_num)]
    norm_num
  · show (0 : ℚ) - 0 < -(-1)
    norm_num
  · show ¬ winnerOf ((0 : ℚ) - 0) (-1) = Winner.B
    unfold winnerOf
    rw [if_pos (by norm_num)]
    simp

/-- C2 (amended): for every pair of breakdowns and every nonnegative epsilon,
the comparator declares winner A exactly when the delta exceeds epsilon,
winner B exactly when the delta is below minus epsilon, and tie otherwise,
with tie holding exactly when the absolute delta is at most epsilon; the
winner is always one of A, B or tie. -/
theorem compare_winner_characterization (a b : ScoreBreakdown) (eps : ℚ) (heps : 0 ≤ eps) :
    ((compareBreakdowns a b eps).winner = Winner.A ↔ eps < (compareBreakdowns a b eps).delta) ∧
    ((compareBreakdowns a b eps).winner = Winner.B ↔ (compareBreakdowns a b eps).delta < -eps) ∧
    ((compareBreakdowns a b eps).winner = Winner.tie ↔
      |(compareBreakdowns a b eps).delta| ≤ eps) ∧
    ((compareBreakdowns a b eps).winner = Winner.A ∨
      (compareBreakdowns a b eps).winner = Winner.B ∨
      (compareBreakdowns a b eps).winner = Winner.tie) := by
  refine ⟨winnerOf_eq_A_iff _ _, winnerOf_eq_B_iff _ _ heps, winnerOf_eq_tie_iff _ _, ?_⟩
  generalize (compareBreakdowns a b eps).winner = w
  cases w <;> simp

/-- C2 witness: the characterization evaluated at concrete breakdowns with
scores 3 and 1 and the default epsilon. -/
theorem compare_winner_characterization_witness :
    ((compareBreakdowns ⟨[], 3⟩ ⟨[], 1⟩ (1 / 100)).winner = Winner.A ↔
      1 / 100 < (compareBreakdowns ⟨[], 3⟩ ⟨[], 1⟩ (1 / 100)).delta) ∧
    ((compareBreakdowns ⟨[], 3⟩ ⟨[], 1⟩ (1 / 100)).winner = Winner.B ↔
      (compareBreakdowns ⟨[], 3⟩ ⟨[], 1⟩ (1 / 100)).delta < -(1 / 100)) ∧
    ((compareBreakdowns ⟨[], 3⟩ ⟨[], 1⟩ (1 / 100)).winner = Winner.tie ↔
      |(compareBreakdowns ⟨[], 3⟩ ⟨[], 1⟩ (1 / 100)).delta| ≤ 1 / 100) ∧
    ((compareBreakdowns ⟨[], 3⟩ ⟨[], 1⟩ (1 / 100)).winner = Winner.A ∨
      (compareBreakdowns ⟨[], 3⟩ ⟨[], 1⟩ (1 / 100)).winner = Winner.B ∨
      (compareBreakdowns ⟨[], 3⟩ ⟨[], 1⟩ (1 / 100)).winner = Winner.tie) :=
  compare_winner_characterization ⟨[], 3⟩ ⟨[], 1⟩ (1 / 100) (by norm_num)

/-- C7: for every pair of breakdowns and nonnegative epsilon, comparing in
the two orders yields negated deltas and swapped but consistent winners, and
comparing a breakdown with itself yields tie. -/
theorem compare_symmetry (a b : ScoreBreakdown) (eps : ℚ) (heps : 0 ≤ eps) :
    (compareBreakdowns b a eps).delta = -(compareBreakdowns a b eps).delta ∧
    ((compareBreakdowns a b eps).winner = Winner.A ↔
      (compareBreakdowns b a eps).winner = Winner.B) ∧
    ((compareBreakdowns a b eps).winner = Winner.B ↔
      (compareBreakdowns b a eps).winner = Winner.A) ∧
    ((compareBreakdowns a b eps).winner = Winner.tie ↔
      (compareBreakdowns b a eps).winner = Winner.tie) ∧
    (compareBreakdowns a a eps).winner = Winner.tie := by
  simp only [compareBreakdowns]
  refine ⟨by ring, ?_, ?_, ?_, ?_⟩
  · rw [winnerOf_eq_A_iff, winnerOf_eq_B_iff _ _ heps]
    constructor <;> intro h <;> linarith
  · rw [winnerOf_eq_B_iff _ _ heps, winnerOf_eq_A_iff]
    constructor <;> intro h <;> linarith
  · rw [winnerOf_eq_tie_iff, winnerOf_eq_tie_iff, abs_sub_comm]
  · rw [winnerOf_eq_tie_iff]
    simpa using heps

/-- C7 witness: the symmetry facts evaluated at concrete breakdowns with
scores 3 and 1 and the default epsilon. -/
theorem compare_symmetry_witness :
    (compareBreakdowns ⟨[], 1⟩ ⟨[], 3⟩ (1 / 100)).delta =
      -(compareBreakdowns ⟨[], 3⟩ ⟨[], 1⟩ (1 / 100)).delta ∧
    ((compareBreakdowns ⟨[], 3⟩ ⟨[], 1⟩ (1 / 100)).winner = Winner.A ↔
      (compareBreakdowns ⟨[], 1⟩ ⟨[], 3⟩ (1 / 100)).winner = Winner.B) ∧
    ((compareBreakdowns ⟨[], 3⟩ ⟨[], 1⟩ (1 / 100)).winner = Winner.B ↔
      (compareBreakdowns ⟨[], 1⟩ ⟨[], 3⟩ (1 / 100)).winner = Winner.A) ∧
    ((compareBreakdowns ⟨[], 3⟩ ⟨[], 1⟩ (1 / 100)).winner = Winner.tie ↔
      (compareBreakdowns ⟨[], 1⟩ ⟨[], 3⟩ (1 / 100)).winner = Winner.tie) ∧
    (compareBreakdowns ⟨[], 3⟩ ⟨[], 3⟩ (1 / 100)).winner = Winner.tie :=
  compare_symmetry ⟨[], 3⟩ ⟨[], 1⟩ (1 / 100) (by norm_num)

/-- C8: normalize, assemble and score are pure Lean functions of their
arguments, so two runs on equal OCR input, equal dictionary snapshot, equal
matcher, equal penalty factor, equal item and equal profile produce identical
outputs. -/
theorem pipeline_deterministic
    (l1 l2 : OcrLine) (hl : l1 = l2)
    (dict1 dict2 : List RefAffix) (hd : dict1 = dict2)
    (f1 f2 : NormalizedLine → List Nat → Option AffixMatch) (hf : f1 = f2)
    (ls1 ls2 : List OcrLine) (hls : ls1 = ls2)
    (pf1 pf2 : ℚ) (hp : pf1 = pf2)
    (it1 it2 : StructuredItem) (hi : it1 = it2)
    (pr1 pr2 : BuildWeightProfile) (hpr : pr1 = pr2) :
    normalize l1 = normalize l2 ∧
    assemble dict1 f1 ls1 = assemble dict2 f2 ls2 ∧
    score dict1 pf1 it1 pr1 = score dict2 pf2 it2 pr2 := by
  subst hl hd hf hls hp hi hpr
  exact ⟨rfl, rfl, rfl⟩

/-- C8 witness: determinism evaluated at the concrete worked-example inputs. -/
theorem pipeline_deterministic_witness :
    normalize ⟨"Tempest Roar", 9 / 10, (10, 10, 200, 20), 0⟩ =
      normalize ⟨"Tempest Roar", 9 / 10, (10, 10, 200, 20), 0⟩ ∧
    assemble dictW matchFnW linesW = assemble dictW matchFnW linesW ∧
    score dictW 2 itemExW profExW = score dictW 2 itemExW profExW :=
  pipeline_deterministic ⟨"Tempest Roar", 9 / 10, (10, 10, 200, 20), 0⟩
    ⟨"Tempest Roar", 9 / 10, (10, 10, 200, 20), 0⟩ rfl dictW dictW rfl
    matchFnW matchFnW rfl linesW linesW rfl 2 2 rfl itemExW itemExW rfl
    profExW profExW rfl

/-- C10: the get_db context manager commits exactly when the body returns
normally, rolls back and re-raises on an exception leaving the committed
contents unchanged, and closes the session in both cases. -/
theorem get_db_commit_rollback_close {δ ε : Type} (dbinit : δ) (body : δ → δ × Option ε) :
    (∀ p, body dbinit = (p, none) → get_db dbinit body = (⟨p, p, true⟩, none)) ∧
    (∀ p e, body dbinit = (p, some e) → get_db dbinit body = (⟨dbinit, dbinit, true⟩, some e)) ∧
    (get_db dbinit body).1.closed = true := by
  refine ⟨?_, ?_, ?_⟩
  · intro p hp
    simp [get_db, hp]
  · intro p e hp
    simp [get_db, hp]
  · rcases h : body dbinit with ⟨p, oe⟩
    cases oe <;> simp [get_db, h]

/-- C10 witness: a committing run and a rolled-back run of get_db on a
numeric database state. -/
theorem get_db_commit_rollback_close_witness :
    get_db (5 : Nat) (fun d => (d + 1, (none : Option Nat))) =
      ({ committed := 6, pending := 6, closed := true }, none) ∧
    get_db (5 : Nat) (fun _ => (7, some 42)) =
      ({ committed := 5, pending := 5, closed := true }, some 42) :=
  ⟨(get_db_commit_rollback_close 5 (fun d => (d + 1, (none : Option Nat)))).1 6 rfl,
   (get_db_commit_rollback_close 5 (fun _ => (7, some 42))).2.1 7 42 rfl⟩

/-- Membership after a positional update comes from the new row or the old
table. -/
lemma mem_of_mem_set {α : Type} :
    ∀ (l : List α) (n : Nat) (b a : α), a ∈ l.set n b → a = b ∨ a ∈ l := by
  intro l
  induction l with
  | nil =>
    intro n b a h
    simp at h
  | cons x t ih =>
    intro n b a h
    cases n with
    | zero =>
      rw [List.set_cons_zero] at h
      rcases List.mem_cons.mp h with h1 | h1
      · exact Or.inl h1
      · exact Or.inr (List.mem_cons_of_mem _ h1)
    | succ k =>
      rw [List.set_cons_succ] at h
      rcases List.mem_cons.mp h with h1 | h1
      · exact Or.inr (h1 ▸ List.mem_cons_self _ _)
      · rcases ih k b a h1 with h2 | h2
        · exact Or.inl h2
        · exact Or.inr (List.mem_cons_of_mem _ h2)

/-- One checked write preserves the per-row check constraint. -/
lemma applyOp_preserves {ρ : Type} (ok : ρ → Bool) (rows : List ρ) (op : TableOp ρ)
    (h : ∀ r ∈ rows, ok r = true) : ∀ r ∈ applyOp ok rows op, ok r = true := by
  cases op with
  | insertRow r0 =>
    intro r hr
    simp only [applyOp] at hr
    split at hr
    · rcases List.mem_cons.mp hr with h1 | h1
      · subst h1; assumption
      · exact h r h1
    · exact h r hr
  | updateRow i r0 =>
    intro r hr
    simp only [applyOp] at hr
    split at hr
    · rcases mem_of_mem_set _ _ _ _ hr with h1 | h1
      · subst h1; assumption
      · exact h r h1
    · exact h r hr

/-- A sequence of checked writes preserves the per-row check constraint. -/
lemma runOps_preserves {ρ : Type} (ok : ρ → Bool) :
    ∀ (ops : List (TableOp ρ)) (rows : List ρ), (∀ r ∈ rows, ok r = true) →
      ∀ r ∈ runOps ok rows ops, ok r = true := by
  intro ops
  induction ops with
  | nil =>
    intro rows h
    simpa [runOps] using h
  | cons op t ih =>
    intro rows h
    have h1 := applyOp_preserves ok rows op h
    simpa [runOps, List.foldl_cons] using ih (applyOp ok rows op) h1

/-- C9: starting from tables whose rows satisfy the check constraints of
src/models.py, no sequence of inserts and updates can produce a stored
item_instances row with quality outside 0 to 8 or ocr_confidence outside 0
to 1 (null column values pass a SQL check), nor a stored
build_affix_weights row with weight outside 0 to 100. -/
theorem table_check_constraints_hold
    (rows : List ItemInstanceRow) (hrows : ∀ r ∈ rows, itemInstanceRowOk r = true)
    (ops : List (TableOp ItemInstanceRow))
    (wrows : List BuildAffixWeightRow) (hw : ∀ r ∈ wrows, weightRowOk r = true)
    (wops : List (TableOp BuildAffixWeightRow)) :
    (∀ r ∈ runOps itemInstanceRowOk rows ops,
      (∀ q, r.quality = some q → 0 ≤ q ∧ q ≤ 8) ∧
      (∀ c, r.ocrConfidence = some c → 0 ≤ c ∧ c ≤ 1)) ∧
    (∀ r ∈ runOps weightRowOk wrows wops, 0 ≤ r.weight ∧ r.weight ≤ 100) := by
  constructor
  · intro r hr
    have hok := runOps_preserves itemInstanceRowOk ops rows hrows r hr
    unfold itemInstanceRowOk at hok
    rw [Bool.and_eq_true] at hok
    constructor
    · intro q hq
      have h1 := hok.1
      rw [hq] at h1
      simpa using h1
    · intro c hc
      have h2 := hok.2
      rw [hc] at h2
      simpa using h2
  · intro r hr
    have hok := runOps_preserves weightRowOk wops wrows hw r hr
    unfold weightRowOk at hok
    simpa using hok

/-- C9 witness: the constraint facts evaluated on concrete tables built by
inserting one valid row into each empty table. -/
theorem table_check_constraints_hold_witness :
    ((0 : Int) ≤ 5 ∧ (5 : Int) ≤ 8) ∧ ((0 : ℚ) ≤ wrowW.weight ∧ wrowW.weight ≤ 100) :=
  ⟨((table_check_constraints_hold [] (by simp) [TableOp.insertRow rowW]
      [] (by simp) [TableOp.insertRow wrowW]).1 rowW
      (by simp [runOps, applyOp, rowW, itemInstanceRowOk]; norm_num)).1 5 rfl,
   (table_check_constraints_hold [] (by simp) [TableOp.insertRow rowW]
      [] (by simp) [TableOp.insertRow wrowW]).2 wrowW
      (by simp [runOps, applyOp, wrowW, weightRowOk]; norm_num)⟩

/-- C1: for every item and profile, each profile entry whose affix is in the
dictionary and has a matching AffixMatch on the item contributes weight times
normalizedRoll to the breakdown, where normalizedRoll is the clamped scaled
roll when the matched reference affix has a defined range with max above min
and the raw roll value otherwise, and the total score is the sum of all
contributions. -/
theorem score_contribution_correct
    (dict : List RefAffix) (pf : ℚ) (item : StructuredItem) (profile : BuildWeightProfile)
    (w : BuildAffixWeight) (hw : w ∈ profile.weights)
    (m : AffixMatch) (hm : item.affixes.find? (fun x => x.affixId == w.affixId) = some m)
    (ra : RefAffix) (hra : lookupAffix dict w.affixId = some ra) :
    (w.affixId, w.weight * normalizedRoll m.roll (refRange ra)) ∈
      (score dict pf item profile).contributions ∧
    (∀ mn mx, refRange ra = some (mn, mx) → mn < mx →
      normalizedRoll m.roll (refRange ra) = max 0 (min 1 ((m.roll - mn) / (mx - mn)))) ∧
    (∀ mn mx, refRange ra = some (mn, mx) → ¬ mn < mx →
      normalizedRoll m.roll (refRange ra) = m.roll) ∧
    (refRange ra = none → normalizedRoll m.roll (refRange ra) = m.roll) ∧
    (score dict pf item profile).total =
      ((score dict pf item profile).contributions.map Prod.snd).sum := by
  refine ⟨?_, ?_, ?_, ?_, rfl⟩
  · have hc : affixContribution dict pf item w = w.weight * normalizedRoll m.roll (refRange ra) := by
      simp only [affixContribution, hra, hm]
    have h2 : (w.affixId, affixContribution dict pf item w) ∈
        (score dict pf item profile).contributions :=
      List.mem_map_of_mem (fun u => (u.affixId, affixContribution dict pf item u)) hw
    rw [hc] at h2
    exact h2
  · intro mn mx hr hlt
    rw [hr]
    simp only [normalizedRoll]
    rw [if_pos hlt]
  · intro mn mx hr hlt
    rw [hr]
    simp only [normalizedRoll]
    rw [if_neg hlt]
  · intro hr
    rw [hr]
    simp only [normalizedRoll]

/-- C1 witness: the worked example of the spec: roll 8.5 in range 1 to 10
with weight 50 contributes 50 times its normalized roll, which is exactly
125 thirds, approximately 41.67. -/
theorem score_contribution_correct_witness :
    (1, (50 : ℚ) * normalizedRoll (17 / 2) (refRange raW)) ∈
      (score dictW 2 itemExW profExW).contributions ∧
    (50 : ℚ) * normalizedRoll (17 / 2) (refRange raW) = 125 / 3 :=
  ⟨(score_contribution_correct dictW 2 itemExW profExW wExW
      (List.mem_cons_self _ _) mExW rfl raW rfl).1,
   by
    show (50 : ℚ) * normalizedRoll (17 / 2) (some (1, 10)) = 125 / 3
    simp only [normalizedRoll]
    rw [if_pos (by norm_num)]
    norm_num⟩

/-- The cache key is determined by the texts and bounding boxes alone. -/
lemma cacheKey_eq_of_text_bbox :
    ∀ (l1 l2 : List OcrLine), l1.map OcrLine.text = l2.map OcrLine.text →
      l1.map OcrLine.bbox = l2.map OcrLine.bbox → cacheKey l1 = cacheKey l2 := by
  intro l1
  induction l1 with
  | nil =>
    intro l2 ht hb
    cases l2 with
    | nil => rfl
    | cons b t2 => simp at ht
  | cons a t ih =>
    intro l2 ht hb
    cases l2 with
    | nil => simp at ht
    | cons b t2 =>
      simp only [List.map_cons, List.cons.injEq] at ht hb
      have htail := ih t2 ht.2 hb.2
      simp only [cacheKey, List.map_cons, List.cons.injEq]
      refine ⟨?_, ?_⟩
      · rw [ht.1, hb.1]
      · simpa [cacheKey] using htail

/-- C5: the cache key is built from the ordered text and bbox tuples only,
so two inputs equal in texts and bboxes share a key whatever their
confidences; on a fresh key the first ingestion invokes the compute function
exactly once, and a second ingestion with the same texts and bboxes returns
the identical cached result with zero further compute invocations. -/
theorem cache_key_ignores_confidence
    (l1 l2 : List OcrLine)
    (ht : l1.map OcrLine.text = l2.map OcrLine.text)
    (hb : l1.map OcrLine.bbox = l2.map OcrLine.bbox)
    (dict : List RefAffix) (f : NormalizedLine → List Nat → Option AffixMatch)
    (c0 : Cache) (hfresh : cacheLookup c0 (cacheKey l1) = none) :
    cacheKey l1 = cacheKey l2 ∧
    (ingest dict f c0 l1).2.2 = 1 ∧
    (ingest dict f (ingest dict f c0 l1).2.1 l2).1 = (ingest dict f c0 l1).1 ∧
    (ingest dict f (ingest dict f c0 l1).2.1 l2).2.2 = 0 := by
  have hk := cacheKey_eq_of_text_bbox l1 l2 ht hb
  have h1 : ingest dict f c0 l1 =
      (assemble dict f l1, (cacheKey l1, assemble dict f l1) :: c0, 1) := by
    simp [ingest, getOrCompute, hfresh]
  have hlook2 : cacheLookup ((cacheKey l1, assemble dict f l1) :: c0) (cacheKey l2) =
      some (assemble dict f l1) := by
    rw [← hk]
    unfold cacheLookup
    rw [List.find?_cons_of_pos _ (by simp)]
    rfl
  refine ⟨hk, by rw [h1], ?_, ?_⟩ <;> rw [h1] <;>
    simp [ingest, getOrCompute, hlook2]

/-- C5 witness: ingesting linesW and then linesW2, which differ only in
per-line confidences, on an empty cache: one compute for the first call, a
cache hit with the identical result and no compute for the second. -/
theorem cache_key_ignores_confidence_witness :
    cacheKey linesW = cacheKey linesW2 ∧
    (ingest dictW matchFnW [] linesW).2.2 = 1 ∧
    (ingest dictW matchFnW (ingest dictW matchFnW [] linesW).2.1 linesW2).1 =
      (ingest dictW matchFnW [] linesW).1 ∧
    (ingest dictW matchFnW (ingest dictW matchFnW [] linesW).2.1 linesW2).2.2 = 0 :=
  cache_key_ignores_confidence linesW linesW2 rfl rfl dictW matchFnW [] rfl

/-- Each processed line adds exactly one to the resolved count or to the
unresolved list: no line is discarded. -/
lemma stepLine_conserve (dict : List RefAffix)
    (f : NormalizedLine → List Nat → Option AffixMatch) (st : AsmState) (l : OcrLine) :
    (stepLine dict f st l).resolvedCount + (stepLine dict f st l).unresolved.length =
      st.resolvedCount + st.unresolved.length + 1 := by
  simp only [stepLine]
  repeat' split
  all_goals simp [List.length_append]
  all_goals omega

/-- Folding the assembly step over a line list conserves lines: the resolved
count plus the unresolved count grows by exactly the number of lines. -/
lemma foldl_conserve (dict : List RefAffix)
    (f : NormalizedLine → List Nat → Option AffixMatch) :
    ∀ (ls : List OcrLine) (st : AsmState),
      (ls.foldl (stepLine dict f) st).resolvedCount +
        (ls.foldl (stepLine dict f) st).unresolved.length =
      st.resolvedCount + st.unresolved.length + ls.length := by
  intro ls
  induction ls with
  | nil =>
    intro st
    simp
  | cons a t ih =>
    intro st
    rw [List.foldl_cons, ih (stepLine dict f st a)]
    have h := stepLine_conserve dict f st a
    simp only [List.length_cons]
    omega

/-- An unresolved entry after one step was already unresolved or is the raw
text of the processed line. -/
lemma stepLine_unres_src (dict : List RefAffix)
    (f : NormalizedLine → List Nat → Option AffixMatch) (st : AsmState) (l : OcrLine) :
    ∀ s ∈ (stepLine dict f st l).unresolved, s ∈ st.unresolved ∨ s = l.text := by
  intro s hs
  simp only [stepLine] at hs
  split at hs
  · exact Or.inl hs
  · split at hs
    · exact Or.inl hs
    · split at hs
      · rcases List.mem_append.mp hs with h1 | h1
        · exact Or.inl h1
        · exact Or.inr (by simpa using h1)
      · split at hs
        · exact Or.inl hs
        · rcases List.mem_append.mp hs with h1 | h1
          · exact Or.inl h1
          · exact Or.inr (by simpa using h1)

/-- An unresolved entry after the fold was present initially or is the raw
text of one of the folded lines. -/
lemma foldl_unres_src (dict : List RefAffix)
    (f : NormalizedLine → List Nat → Option AffixMatch) :
    ∀ (ls : List OcrLine) (st : AsmState),
      ∀ s ∈ (ls.foldl (stepLine dict f) st).unresolved,
        s ∈ st.unresolved ∨ ∃ l ∈ ls, l.text = s := by
  intro ls
  induction ls with
  | nil =>
    intro st s hs
    exact Or.inl hs
  | cons a t ih =>
    intro st s hs
    rw [List.foldl_cons] at hs
    rcases ih (stepLine dict f st a) s hs with h | h
    · rcases stepLine_unres_src dict f st a s h with h1 | h1
      · exact Or.inl h1
      · exact Or.inr ⟨a, List.mem_cons_self a t, h1.symm⟩
    · rcases h with ⟨l, hl, he⟩
      exact Or.inr ⟨l, List.mem_cons_of_mem _ hl, he⟩

/-- A roll accepted by the range check lies inside the defined reference
range. -/
lemma rollInRange_sound (dict : List RefAffix) (i : Nat) (roll : ℚ)
    (h : rollInRange dict i roll = true) :
    ∀ mn mx, lookupRange dict i = some (mn, mx) → mn ≤ roll ∧ roll ≤ mx := by
  intro mn mx hr
  unfold rollInRange at h
  rw [hr] at h
  simpa using h

/-- One assembly step preserves the range invariant on accepted matches. -/
lemma stepLine_affix_ok (dict : List RefAffix)
    (f : NormalizedLine → List Nat → Option AffixMatch) (st : AsmState) (l : OcrLine)
    (h : ∀ m ∈ st.affixes, ∀ mn mx, lookupRange dict m.affixId = some (mn, mx) →
      mn ≤ m.roll ∧ m.roll ≤ mx) :
    ∀ m ∈ (stepLine dict f st l).affixes, ∀ mn mx,
      lookupRange dict m.affixId = some (mn, mx) → mn ≤ m.roll ∧ m.roll ≤ mx := by
  intro m hm
  simp only [stepLine] at hm
  split at hm
  · exact h m hm
  · split at hm
    · exact h m hm
    · split at hm
      · exact h m hm
      · rename_i m0 heq
        split at hm
        · rename_i hin
          rcases List.mem_append.mp hm with h1 | h1
          · exact h m h1
          · have hm0 : m = { m0 with isImplicit := !st.seenDivider } := by simpa using h1
            subst hm0
            exact rollInRange_sound dict m0.affixId m0.roll hin
        · exact h m hm

/-- The fold of assembly steps preserves the range invariant. -/
lemma foldl_affix_ok (dict : List RefAffix)
    (f : NormalizedLine → List Nat → Option AffixMatch) :
    ∀ (ls : List OcrLine) (st : AsmState),
      (∀ m ∈ st.affixes, ∀ mn mx, lookupRange dict m.affixId = some (mn, mx) →
        mn ≤ m.roll ∧ m.roll ≤ mx) →
      ∀ m ∈ (ls.foldl (stepLine dict f) st).affixes, ∀ mn mx,
        lookupRange dict m.affixId = some (mn, mx) → mn ≤ m.roll ∧ m.roll ≤ mx := by
  intro ls
  induction ls with
  | nil =>
    intro st h
    exact h
  | cons a t ih =>
    intro st h
    rw [List.foldl_cons]
    exact ih _ (stepLine_affix_ok dict f st a h)

/-- C4: every AffixMatch of a successfully assembled StructuredItem has its
roll inside the matched reference affix range whenever that range is
defined; out-of-range candidates never enter the item. -/
theorem assemble_roll_range_invariant
    (dict : List RefAffix) (f : NormalizedLine → List Nat → Option AffixMatch)
    (lines : List OcrLine) (item : StructuredItem)
    (h : assemble dict f lines = Except.ok item)
    (m : AffixMatch) (hm : m ∈ item.affixes)
    (mn mx : ℚ) (hr : lookupRange dict m.affixId = some (mn, mx)) :
    mn ≤ m.roll ∧ m.roll ≤ mx := by
  rcases hne : nonEmptyLines lines with _ | ⟨nameLine, rest⟩
  · simp [assemble, hne] at h
  · simp only [assemble, hne] at h
    split at h
    · cases h
    · have hitem := Except.ok.inj h
      have hinv := foldl_affix_ok dict f rest initState (by intro m2 hm2; simp [initState] at hm2)
      rw [← hitem] at hm
      exact hinv m hm mn mx hr

/-- C4 witness: the item assembled from linesW carries the worked-example
match, whose roll 8.5 lies inside the range 1 to 10. -/
theorem assemble_roll_range_invariant_witness :
    (1 : ℚ) ≤ (⟨1, 17 / 2, 19 / 20, true⟩ : AffixMatch).roll ∧
    (⟨1, 17 / 2, 19 / 20, true⟩ : AffixMatch).roll ≤ 10 :=
  assemble_roll_range_invariant dictW matchFnW linesW itemW
    (by with_unfolding_all rfl) ⟨1, 17 / 2, 19 / 20, true⟩
    (List.mem_cons_self _ _) 1 10 rfl

/-- C3: assembly fails with EmptyInput exactly on zero non-empty lines,
fails with InsufficientMatch exactly when the completeness ratio of resolved
lines over non-empty lines is below one half, and on success every processed
line is either resolved or retained in the unresolved list, each unresolved
entry being the raw text of an input line. -/
theorem assemble_error_and_retention
    (dict : List RefAffix) (f : NormalizedLine → List Nat → Option AffixMatch)
    (lines : List OcrLine) :
    (assemble dict f lines = Except.error AssemblyError.emptyInput ↔
      nonEmptyLines lines = []) ∧
    (nonEmptyLines lines ≠ [] →
      (assemble dict f lines = Except.error AssemblyError.insufficientMatch ↔
        ((resolvedCountOf dict f lines : ℚ) / ((nonEmptyLines lines).length : ℚ) < 1 / 2))) ∧
    (∀ item, assemble dict f lines = Except.ok item →
      resolvedCountOf dict f lines + item.unresolvedLines.length =
        (nonEmptyLines lines).length ∧
      ∀ s ∈ item.unresolvedLines, ∃ l ∈ lines, l.text = s) := by
  rcases hne : nonEmptyLines lines with _ | ⟨nameLine, rest⟩
  · refine ⟨by simp [assemble, hne], fun hcon => absurd rfl hcon, ?_⟩
    intro item hitem
    simp [assemble, hne] at hitem
  · have hlen : (nonEmptyLines lines).length = rest.length + 1 := by rw [hne]; rfl
    have hres : resolvedCountOf dict f lines =
        (rest.foldl (stepLine dict f) initState).resolvedCount + 1 := by
      simp [resolvedCountOf, hne]
    have harith : ((resolvedCountOf dict f lines : ℚ) /
          (((nameLine :: rest) : List OcrLine).length : ℚ) < 1 / 2) ↔
        ((rest.foldl (stepLine dict f) initState).resolvedCount + 1) * 2 < rest.length + 1 := by
      rw [hres]
      simp only [List.length_cons]
      rw [div_lt_iff (by positivity)]
      constructor
      · intro h1
        have h2 : ((((rest.foldl (stepLine dict f) initState).resolvedCount + 1) * 2 : ℕ) : ℚ) <
            ((rest.length + 1 : ℕ) : ℚ) := by
          push_cast at h1 ⊢
          linarith
        exact_mod_cast h2
      · intro h1
        have h2 : ((((rest.foldl (stepLine dict f) initState).resolvedCount + 1) * 2 : ℕ) : ℚ) <
            ((rest.length + 1 : ℕ) : ℚ) := by exact_mod_cast h1
        push_cast at h2 ⊢
        linarith
    refine ⟨?_, ?_, ?_⟩
    · simp only [assemble, hne]
      split
      · simp
      · simp
    · intro _
      simp only [assemble, hne]
      split
      · rename_i hc
        exact iff_of_true rfl (harith.mpr hc)
      · rename_i hc
        exact iff_of_false (fun hcon => Except.noConfusion hcon)
          (fun hq => hc (harith.mp hq))
    · intro item hitem
      simp only [assemble, hne] at hitem
      split at hitem
      · cases hitem
      · have heq := Except.ok.inj hitem
        subst heq
        constructor
        · have hc := foldl_conserve dict f rest initState
          simp [initState] at hc
          rw [hres]
          simp only [List.length_cons, initState]
          omega
        · intro s hs
          rcases foldl_unres_src dict f rest initState s hs with h1 | h1
          · simp [initState] at h1
          · rcases h1 with ⟨l, hl, he⟩
            have hmem : l ∈ nonEmptyLines lines := by
              rw [hne]
              exact List.mem_cons_of_mem _ hl
            exact ⟨l, (List.mem_filter.mp hmem).1, he⟩

/-- C3 witness: on the concrete linesW both lines resolve, assembly
succeeds and conserves the two non-empty lines between resolved count and
unresolved list. -/
theorem assemble_error_and_retention_witness :
    resolvedCountOf dictW matchFnW linesW + itemW.unresolvedLines.length =
      (nonEmptyLines linesW).length :=
  ((assemble_error_and_retention dictW matchFnW linesW).2.2 itemW
    (by with_unfolding_all rfl)).1

/-- C6 counterexample: with the required affix weighted 0 (weights range
over 0 to 100), the missing-affix penalty is -(0 x 2.0) = 0 and the item
lacking the affix has exactly the same total as the otherwise-identical item
holding the affix at its minimum roll, so the claimed strict inequality
fails as stated for every weight. -/
theorem required_penalty_zero_weight_cex :
    (score [⟨1, "intelligence", some 1, some 10, false, false, 1⟩] 2 ⟨"x", [], []⟩
        ⟨1, [⟨1, 0, 1, true⟩]⟩).total =
    (score [⟨1, "intelligence", some 1, some 10, false, false, 1⟩] 2
        ⟨"x", [⟨1, 1, 1, false⟩], []⟩ ⟨1, [⟨1, 0, 1, true⟩]⟩).total := by
  with_unfolding_all rfl

/-- C6 (amended): for every profile whose weights are nonnegative that marks
an affix required with weight w strictly positive and penalty factor 2.0,
where the affix is in the dictionary with a defined range whose max exceeds
its min, an item lacking the affix receives contribution -(w x 2.0) from
that term, and its total score is strictly less than the total of the
otherwise-identical item carrying the affix at its minimum roll. -/
theorem required_missing_penalty
    (dict : List RefAffix) (profile : BuildWeightProfile)
    (w : BuildAffixWeight) (hw : w ∈ profile.weights)
    (hreq : w.isRequired = true) (hwpos : 0 < w.weight)
    (hnonneg : ∀ u ∈ profile.weights, 0 ≤ u.weight)
    (ra : RefAffix) (hra : lookupAffix dict w.affixId = some ra)
    (mn mx : ℚ) (hrange : refRange ra = some (mn, mx)) (hlt : mn < mx)
    (itemMissing itemPresent : StructuredItem) (newM : AffixMatch)
    (hmiss : itemMissing.affixes.find? (fun x => x.affixId == w.affixId) = none)
    (hpres : itemPresent.affixes = newM :: itemMissing.affixes)
    (hid : newM.affixId = w.affixId) (hroll : newM.roll = mn) :
    affixContribution dict 2 itemMissing w = -(w.weight * 2) ∧
    (score dict 2 itemMissing profile).total < (score dict 2 itemPresent profile).total := by
  have hnorm0 : normalizedRoll mn (refRange ra) = 0 := by
    rw [hrange]
    simp only [normalizedRoll]
    rw [if_pos hlt]
    rw [sub_self, zero_div]
    rw [min_eq_right (by norm_num : (0 : ℚ) ≤ 1), max_self]
  have hcM : affixContribution dict 2 itemMissing w = -(w.weight * 2) := by
    simp only [affixContribution, hra, hmiss, hreq, if_true]
  have hfindP : itemPresent.affixes.find? (fun x => x.affixId == w.affixId) = some newM := by
    rw [hpres]
    exact List.find?_cons_of_pos _ (by simp [hid])
  have hcP : affixContribution dict 2 itemPresent w = 0 := by
    simp only [affixContribution, hra, hfindP]
    rw [hroll, hnorm0, mul_zero]
  have hentry : ∀ u ∈ profile.weights,
      affixContribution dict 2 itemMissing u ≤ affixContribution dict 2 itemPresent u := by
    intro u hu
    by_cases hidu : u.affixId = w.affixId
    · have hfindMu : itemMissing.affixes.find? (fun x => x.affixId == u.affixId) = none := by
        rw [hidu]
        exact hmiss
      have hfindPu : itemPresent.affixes.find? (fun x => x.affixId == u.affixId) = some newM := by
        rw [hidu]
        exact hfindP
      have hrau : lookupAffix dict u.affixId = some ra := by
        rw [hidu]
        exact hra
      simp only [affixContribution, hrau, hfindMu, hfindPu]
      rw [hroll, hnorm0, mul_zero]
      split
      · have := hnonneg u hu
        linarith
      · exact le_refl 0
    · have hfindPu : itemPresent.affixes.find? (fun x => x.affixId == u.affixId) =
          itemMissing.affixes.find? (fun x => x.affixId == u.affixId) := by
        rw [hpres]
        rw [List.find?_cons_of_neg]
        simp only [hid, beq_iff_eq]
        exact fun hcon => hidu hcon.symm
      simp only [affixContribution, hfindPu]
      exact le_refl _
  have hstrict : affixContribution dict 2 itemMissing w < affixContribution dict 2 itemPresent w := by
    rw [hcM, hcP]
    linarith
  refine ⟨hcM, ?_⟩
  have hsum : ((profile.weights.map
        (fun u => (u.affixId, affixContribution dict 2 itemMissing u))).map Prod.snd).sum <
      ((profile.weights.map
        (fun u => (u.affixId, affixContribution dict 2 itemPresent u))).map Prod.snd).sum := by
    rw [List.map_map, List.map_map]
    exact List.sum_lt_sum _ _ (fun u hu => hentry u hu) ⟨w, hw, hstrict⟩
  exact hsum

/-- C6 witness: the concrete one-affix profile with required weight 100: the
missing item takes contribution -200 from the required term and scores
strictly below the same item with the affix at minimum roll. -/
theorem required_missing_penalty_witness :
    (affixContribution dictW 2 itemMissW wW = -(wW.weight * 2) ∧
      (score dictW 2 itemMissW profW).total < (score dictW 2 itemPresW profW).total) ∧
    affixContribution dictW 2 itemMissW wW = -200 :=
  ⟨required_missing_penalty dictW profW wW (List.mem_cons_self _ _) rfl
      (by norm_num [wW]) (by intro u hu; simp [profW] at hu; rw [hu]; norm_num)
      raW rfl 1 10 rfl (by norm_num) itemMissW itemPresW newMW rfl rfl rfl rfl,
   by with_unfolding_all rfl⟩

end D4
